import Mathlib

/-!
Verification development for the CMDRun command-launcher core.

The definitions below are a shallow embedding of the TypeScript source:
`listProvider.ts` (the action store, group tree builder and the
reorder/regroup drag-and-drop engine) and `extension.ts` (the execution
dispatcher).  JavaScript arrays become `List`, optional fields become
`Option`, `Array.prototype.splice` becomes explicit `take`/`drop`/
`eraseIdx` manipulation, and JavaScript string truthiness (`""` is falsy)
is modelled explicitly.
-/

namespace CMDRun

/-- Model of JavaScript `String.prototype.startsWith`, on character lists. -/
def strStartsWith (s pre : String) : Bool :=
  pre.data.isPrefixOf s.data

/-- Containment of a character list inside another one. -/
def charsInfix (needle : List Char) : List Char → Bool
  | [] => needle.isPrefixOf []
  | c :: cs => needle.isPrefixOf (c :: cs) || charsInfix needle cs

/-- Model of JavaScript `String.prototype.includes` (substring test). -/
def strIncludes (s sub : String) : Bool :=
  charsInfix sub.data s.data

/-- ASCII lower-casing of one character, as JavaScript `toLowerCase` does on
ASCII input. -/
def charLower (c : Char) : Char :=
  if c.toNat ≥ 65 ∧ c.toNat ≤ 90 then Char.ofNat (c.toNat + 32) else c

/-- Model of JavaScript `String.prototype.toLowerCase`. -/
def lowerStr (s : String) : String :=
  String.mk (s.data.map charLower)

/-- Split a character list at every occurrence of `sep`; the result is never
empty, mirroring JavaScript `split`. -/
def splitChars (sep : Char) : List Char → List (List Char)
  | [] => [[]]
  | c :: cs =>
    match splitChars sep cs with
    | [] => [[]]
    | h :: t => if c == sep then [] :: h :: t else (c :: h) :: t

/-- Model of JavaScript `String.prototype.split` with a one-character
separator, as used with `'/'` throughout the source. -/
def jsSplit (s : String) (sep : Char) : List String :=
  (splitChars sep s.data).map String.mk

/-- One entry of the `urls` array (`listProvider.ts`, interface `UrlItem`). -/
structure UrlItem where
  url : String
  external : Option Bool := none
deriving DecidableEq, Repr

/-- One entry of the `programs` array (`listProvider.ts`, interface
`ProgramItem`). -/
structure ProgramItem where
  path : String
  args : Option String := none
deriving DecidableEq, Repr

/-- The persisted shape of one action (`listProvider.ts`, interface
`CommandData`).  Optional TypeScript fields are `Option`; the deprecated
singular `url`, `program` and `args` fields are kept alongside the
new-style arrays exactly as in the source.  The `env` map is omitted: no
claim observes it. -/
structure CommandData where
  name : String
  group : Option String := none
  commands : Option (List String) := none
  autoClose : Option Bool := none
  externalTerminal : Option Bool := none
  terminalProfile : Option String := none
  runAsAdmin : Option Bool := none
  urls : Option (List UrlItem) := none
  url : Option String := none
  programs : Option (List ProgramItem) := none
  program : Option String := none
  args : Option (List String) := none
deriving DecidableEq, Repr

/-- JavaScript truthiness test `!c.group`: an absent group and the empty
string are both falsy. -/
def groupFalsy : Option String → Bool
  | none => true
  | some s => s == ""

/-- The membership test `c.group === g || (c.group && c.group.startsWith(g
+ '/'))` used for "command belongs to group `g` or one of its subgroups"
(`listProvider.ts` lines 323, 362-364, 375-376, 395, 527-529). -/
def inGroupStr (g : String) (c : CommandData) : Bool :=
  match c.group with
  | none => false
  | some s => s == g || (!(s == "") && strStartsWith s (g ++ "/"))

/-- A drop target as handed to `handleDrop`/`handleGroupDrop`: a `GroupItem`
(carrying its group path), a `CommandItem` (carrying its data and store
index) or `undefined` (drop on empty space), the latter modelled by
`Option.none` at the call sites. -/
inductive DropTarget where
  | groupItem (groupPath : String)
  | commandItem (data : CommandData) (index : Nat)
deriving DecidableEq, Repr

/-- JavaScript `arr.splice(i, 0, ...xs)`: insert `xs` at position `i`,
clamping to the array length. -/
def spliceIns (l : List α) (i : Nat) (xs : List α) : List α :=
  l.take i ++ xs ++ l.drop i

/-- The two-splice move used by `handleDrop` (`listProvider.ts` lines
342-344 and 349-351): remove the element at `src`, then insert it at
`tgt` adjusted downward by one when `src < tgt`. -/
def moveSplice (l : List CommandData) (src tgt : Nat) : List CommandData :=
  match l[src]? with
  | some removed => spliceIns (l.eraseIdx src) (if src < tgt then tgt - 1 else tgt) [removed]
  | none => l

/-- Target resolution of `handleDrop` (`listProvider.ts` lines 316-338):
produces the target group and target index.  Every case assigns a
non-negative index (the `-1` sentinel is always replaced), so the result
index is a `Nat`. -/
def resolveDropTarget (commands : List CommandData) :
    Option DropTarget → Option String × Nat
  | some (.groupItem g) =>
      (some g, ((commands.findIdx? (inGroupStr g)).getD commands.length))
  | some (.commandItem d i) => (d.group, i)
  | none =>
      (none, ((commands.findIdx? (fun c => groupFalsy c.group)).getD commands.length))

/-- `ListProvider.handleDrop` for a `commands`-type drag payload
(`listProvider.ts` lines 304-356).  Only the first entry of
`sourceIndices` is read.  In the same-group case the action is moved with
the adjusted splice; otherwise its `group` field is reassigned to the
target group and, when the target index differs from the source index, it
is moved with the same adjusted splice. -/
def handleDrop (commands : List CommandData) (sourceIndices : List Nat)
    (target : Option DropTarget) : List CommandData :=
  match sourceIndices with
  | [] => commands
  | sourceIndex :: _ =>
    match commands[sourceIndex]? with
    | none => commands
    | some sourceCmd =>
      let r := resolveDropTarget commands target
      let targetGroup := r.1
      let targetIndex := r.2
      -- the source also tests `targetIndex !== -1`; every branch of the
      -- target resolution assigns a non-negative index, so it always holds
      if sourceCmd.group == targetGroup then
        moveSplice commands sourceIndex targetIndex
      else
        let commands1 := commands.set sourceIndex { sourceCmd with group := targetGroup }
        if targetIndex == sourceIndex then commands1
        else moveSplice commands1 sourceIndex targetIndex

/-- `list.map((c, i) => ({cmd: c, idx: i}))`: pair every element with its
index, starting at `i`. -/
def enumFrom (i : Nat) : List α → List (Nat × α)
  | [] => []
  | a :: as => (i, a) :: enumFrom (i + 1) as

/-- The ascending index list `commands.map((c, i) =>
({cmd, idx})).filter(...).map(item => item.idx)` of `handleGroupDrop`
(`listProvider.ts` lines 393-396), generalised over the filter
predicate. -/
def idxsWhere (p : CommandData → Bool) (commands : List CommandData) : List Nat :=
  ((enumFrom 0 commands).filter (fun q => p q.2)).map Prod.fst

/-- JavaScript `.sort((a, b) => b - a)`: sort a list of numbers in
descending order. -/
def sortDescNat (l : List Nat) : List Nat :=
  l.insertionSort (fun a b => b ≤ a)

/-- The removal loop of `handleGroupDrop` (`listProvider.ts` lines
400-403): repeatedly `splice` out the element at each index (indices are
supplied in descending order) and `unshift` it onto the removed list. -/
def removeLoop : List CommandData → List Nat → List CommandData × List CommandData
  | l, [] => (l, [])
  | l, i :: rest =>
    let r := removeLoop (l.eraseIdx i) rest
    (r.1, r.2 ++ l[i]?.toList)

/-- `ListProvider.handleGroupDrop` (`listProvider.ts` lines 360-414): move
every command of `sourceGroupPath` (and its subgroups) as one block to the
resolved target index, correcting that index by the number of removed
source positions lying strictly before it. -/
def handleGroupDrop (commands : List CommandData) (sourceGroupPath : String)
    (target : Option DropTarget) : List CommandData :=
  let sourceCommands := commands.filter (inGroupStr sourceGroupPath)
  if sourceCommands.isEmpty then commands
  else
    let targetIndexOpt : Option Nat :=
      match target with
      | some (.groupItem g) => commands.findIdx? (inGroupStr g)
      | some (.commandItem _ i) => some i
      | none =>
          some ((commands.findIdx? (fun c => groupFalsy c.group)).getD commands.length)
    let targetIndex := targetIndexOpt.getD commands.length
    let sourceIndices := sortDescNat (idxsWhere (inGroupStr sourceGroupPath) commands)
    let r := removeLoop commands sourceIndices
    let sourcesBeforeTarget := (sourceIndices.filter (fun idx => idx < targetIndex)).length
    spliceIns r.1 (targetIndex - sourcesBeforeTarget) r.2

/-- The effective URL list `cmdData.urls || (cmdData.url ? [{url:
cmdData.url}] : [])` (`extension.ts` line 188; the same expression appears
in `matchesSearch` and in the `CommandItem` constructor).  A present array
(even an empty one) is truthy and wins; the deprecated singular `url`
field is wrapped only when it is a truthy (non-empty) string. -/
def effectiveUrls (a : CommandData) : List UrlItem :=
  match a.urls with
  | some us => us
  | none =>
    match a.url with
    | some u => if u == "" then [] else [{ url := u }]
    | none => []

/-- The program list used by `matchesSearch` (`listProvider.ts` line 261):
`cmd.programs || (cmd.program ? [{path: cmd.program}] : [])`. -/
def searchPrograms (a : CommandData) : List ProgramItem :=
  match a.programs with
  | some ps => ps
  | none =>
    match a.program with
    | some p => if p == "" then [] else [{ path := p }]
    | none => []

/-- `ListProvider.matchesSearch` (`listProvider.ts` lines 239-266): an empty
filter matches everything; otherwise the filter must occur (lower-cased)
in the name, the (truthy) group, some shell command, some effective URL or
some effective program path. -/
def matchesSearch (searchFilter : String) (cmd : CommandData) : Bool :=
  if searchFilter == "" then true
  else if strIncludes (lowerStr cmd.name) searchFilter then true
  else if (match cmd.group with
           | some g => !(g == "") && strIncludes (lowerStr g) searchFilter
           | none => false) then true
  else if (cmd.commands.getD []).any (fun c => strIncludes (lowerStr c) searchFilter) then true
  else if (effectiveUrls cmd).any (fun u => strIncludes (lowerStr u.url) searchFilter) then true
  else if (searchPrograms cmd).any (fun p => strIncludes (lowerStr p.path) searchFilter) then true
  else false

/-- A view node produced by the group tree builder: a `GroupItem` (path,
expansion flag, descendant action count shown as the description) or a
`CommandItem` (action data and store index). -/
inductive TreeItem where
  | group (path : String) (expanded : Bool) (count : Nat)
  | command (data : CommandData) (index : Nat)
deriving DecidableEq, Repr

/-- The `filteredCommands` computation shared by `getRootItems` and
`getGroupChildren` (`listProvider.ts` lines 538-540 and 578-580):
`this.searchFilter ? this.commands.filter(cmd => this.matchesSearch(cmd))
: this.commands`. -/
def filteredCmds (searchFilter : String) (commands : List CommandData) : List CommandData :=
  if searchFilter == "" then commands else commands.filter (matchesSearch searchFilter)

/-- `ListProvider.getGroupCommandCount` (`listProvider.ts` lines 525-530)
applied to an explicit command list, as both call sites do. -/
def getGroupCommandCount (groupPath : String) (cmds : List CommandData) : Nat :=
  (cmds.filter (inGroupStr groupPath)).length

/-- One step of the top-level-group collection loop of `getRootItems`
(`listProvider.ts` lines 543-551): record the first path segment of every
truthy group, in order of first appearance. -/
def topLevelGroupsStep (acc : List String) (cmd : CommandData) : List String :=
  match cmd.group with
  | none => acc
  | some g =>
    if g == "" then acc
    else
      let top := (jsSplit g '/').headD ""
      if acc.contains top then acc else acc ++ [top]

/-- The ordered list of distinct top-level group segments of the filtered
commands, in order of first appearance. -/
def topLevelGroupsOf (cmds : List CommandData) : List String :=
  cmds.foldl topLevelGroupsStep []

/-- `ListProvider.getRootItems` (`listProvider.ts` lines 532-569): one
`GroupItem` per top-level group segment (expanded while searching,
otherwise per stored expansion state, counted against the filtered
commands), followed by the ungrouped matching commands with their store
indices. -/
def getRootItems (commands : List CommandData) (searchFilter : String)
    (expandedGroups : List String) : List TreeItem :=
  let filteredCommands := filteredCmds searchFilter commands
  let topLevelGroups := topLevelGroupsOf filteredCommands
  let groupItems := topLevelGroups.map (fun g =>
    TreeItem.group g
      (if !(searchFilter == "") then true else expandedGroups.contains g)
      (getGroupCommandCount g filteredCommands))
  let commandItems :=
    ((enumFrom 0 commands).filter
        (fun p => groupFalsy p.2.group && matchesSearch searchFilter p.2)).map
      (fun p => TreeItem.command p.2 p.1)
  groupItems ++ commandItems

/-- One step of the `forEach` loop of `getGroupChildren` (`listProvider.ts`
lines 583-606): skip falsy groups and filtered-out commands, emit direct
children as command items, and collect the next path segment of deeper
descendants as subgroups in order of first appearance. -/
def getGroupChildrenStep (searchFilter : String) (groupPath : String)
    (acc : List TreeItem × List String) (p : Nat × CommandData) :
    List TreeItem × List String :=
  match p.2.group with
  | none => acc
  | some g =>
    if g == "" then acc
    else if !(searchFilter == "") && !(matchesSearch searchFilter p.2) then acc
    else if g == groupPath then (acc.1 ++ [TreeItem.command p.2 p.1], acc.2)
    else if strStartsWith g (groupPath ++ "/") then
      let remaining := String.mk (g.data.drop (groupPath ++ "/").data.length)
      let nextGroup := (jsSplit remaining '/').headD ""
      let fullSubGroup := groupPath ++ "/" ++ nextGroup
      if acc.2.contains fullSubGroup then acc else (acc.1, acc.2 ++ [fullSubGroup])
    else acc

/-- `ListProvider.getGroupChildren` (`listProvider.ts` lines 571-618):
subgroup items (expanded while searching, counted against the filtered
commands) followed by the direct child command items. -/
def getGroupChildren (commands : List CommandData) (searchFilter : String)
    (expandedGroups : List String) (groupPath : String) : List TreeItem :=
  let filteredCommands := filteredCmds searchFilter commands
  let acc := (enumFrom 0 commands).foldl (getGroupChildrenStep searchFilter groupPath) ([], [])
  let subGroupItems := acc.2.map (fun sg =>
    TreeItem.group sg
      (if !(searchFilter == "") then true else expandedGroups.contains sg)
      (getGroupCommandCount sg filteredCommands))
  subGroupItems ++ acc.1

/-- The `args` value carried by one entry of the dispatcher's program list
(`extension.ts` line 213): either a plain string (new-style
`ProgramItem.args`) or an array of tokens (deprecated top-level
`args`). -/
inductive JsArgs where
  | ofStr (s : String)
  | ofArr (toks : List String)
deriving DecidableEq, Repr

/-- The dispatcher's program list `cmdData.programs || (cmdData.program ?
[{path: cmdData.program, args: cmdData.args}] : [])` (`extension.ts` lines
213-214), pairing each path with its not-yet-flattened args value. -/
def resolvedPrograms (a : CommandData) : List (String × Option JsArgs) :=
  match a.programs with
  | some ps => ps.map (fun p => (p.path, p.args.map JsArgs.ofStr))
  | none =>
    match a.program with
    | some p => if p == "" then [] else [(p, a.args.map JsArgs.ofArr)]
    | none => []

/-- The per-program args string `Array.isArray(prog.args) ?
prog.args.join(' ') : (prog.args || '')` (`extension.ts` line 221). -/
def progArgsStr : Option JsArgs → String
  | some (.ofArr toks) => String.intercalate " " toks
  | some (.ofStr s) => s
  | none => ""

/-- One URL line of the `CommandItem` tooltip (`listProvider.ts` line
148). -/
def tooltipUrlLine (u : UrlItem) : String :=
  "🔗 " ++ u.url ++ (match u.external with | some true => " (external)" | _ => "")

/-- One program line of the `CommandItem` tooltip (`listProvider.ts` lines
154-155); a falsy (absent or empty) args string contributes nothing. -/
def tooltipProgLine (p : ProgramItem) : String :=
  "⚙️ " ++ p.path ++ (match p.args with
                       | some s => if s == "" then "" else " " ++ s
                       | none => "")

/-- The tooltip's program list (`listProvider.ts` line 152): `data.programs
|| (data.program ? [{path: data.program, args: Array.isArray(data.args) ?
data.args.join(' ') : data.args}] : [])`. -/
def tooltipPrograms (d : CommandData) : List ProgramItem :=
  match d.programs with
  | some ps => ps
  | none =>
    match d.program with
    | some p =>
        if p == "" then []
        else [{ path := p,
                args := match d.args with
                        | some toks => some (String.intercalate " " toks)
                        | none => none }]
    | none => []

/-- The tooltip built by the `CommandItem` constructor (`listProvider.ts`
lines 139-157): shell commands, then URL lines, then program lines, joined
with newlines. -/
def buildTooltip (d : CommandData) : String :=
  let parts1 := d.commands.getD []
  let parts2 := parts1 ++ (effectiveUrls d).map tooltipUrlLine
  let parts3 := parts2 ++ (tooltipPrograms d).map tooltipProgLine
  String.intercalate "\n" parts3

/-- `cmdData.commands.join(' && ')` (`extension.ts` line 55): the separator
for CMD and Bash. -/
def cmdJoined (cmds : List String) : String :=
  String.intercalate " && " cmds

/-- `cmdData.commands.join('; ')` (`extension.ts` line 56): the separator
for PowerShell sequential execution. -/
def psJoined (cmds : List String) : String :=
  String.intercalate "; " cmds

/-- The exact string passed to `terminal.sendText` by the internal-terminal
branch of the `cmdrun.run` handler (`extension.ts` lines 160-183), as a
function of `process.platform`, the `autoClose` flag and the command
list. -/
def internalTerminalText (platform : String) (autoClose : Bool)
    (cmds : List String) : String :=
  let internalCommands := if platform == "win32" then psJoined cmds else cmdJoined cmds
  if autoClose then
    if platform == "win32" then
      "try \x7b " ++ psJoined cmds ++ " \x7d finally \x7b exit \x7d"
    else
      "trap \x27exit\x27 INT; " ++ cmdJoined cmds ++ "; exit"
  else internalCommands

/-- The parsed `commands` field of an imported document: an array of
actions, or some present value that is not an array (which also covers the
falsy non-missing values, rejected by the same guard). -/
inductive ImportedCommands where
  | arr (cmds : List CommandData)
  | nonArray
deriving DecidableEq, Repr

/-- An imported configuration document; `commands` is `none` when the field
is missing. -/
structure ImportedDoc where
  commands : Option ImportedCommands
deriving DecidableEq, Repr

/-- The user's quick-pick answer during import. -/
inductive ImportAction where
  | merge
  | replace
deriving DecidableEq, Repr

/-- The merge key `` `${c.group || ''}::${c.name}` `` (`listProvider.ts`
lines 883 and 887). -/
def keyOf (c : CommandData) : String :=
  (c.group.getD "") ++ "::" ++ c.name

/-- The merge loop of `importConfig` (`listProvider.ts` lines 882-893): add
each imported command whose key is not yet present. -/
def mergeCommands (store imported : List CommandData) : List CommandData :=
  (imported.foldl
    (fun (acc : List CommandData × List String) cmd =>
      let key := keyOf cmd
      if acc.2.contains key then acc else (acc.1 ++ [cmd], acc.2 ++ [key]))
    (store, store.map keyOf)).1

/-- `ListProvider.importConfig` (`listProvider.ts` lines 843-906) after the
document has been parsed: reject the document when the `commands` field is
missing or not an array, otherwise apply the user's choice.  The `Bool`
component records whether `saveCommands` (persist) ran. -/
def importConfig (store : List CommandData) (doc : ImportedDoc)
    (choice : Option ImportAction) : List CommandData × Bool :=
  match doc.commands with
  | none => (store, false)
  | some .nonArray => (store, false)
  | some (.arr imported) =>
    match choice with
    | none => (store, false)
    | some .replace => (imported, true)
    | some .merge => (mergeCommands store imported, true)

/-! Concrete actions used by the scenario theorems and witnesses. -/

/-- Ungrouped action `A` of the simple-move scenario. -/
def actA : CommandData := { name := "A" }

/-- Action `B` of the simple-move scenario, in group `"X"`. -/
def actB : CommandData := { name := "B", group := some "X" }

/-- Action `C` of the simple-move scenario, in group `"X"`. -/
def actC : CommandData := { name := "C", group := some "X" }

/-- Action `A` of the group-move scenario, in group `"G"`. -/
def actAG : CommandData := { name := "A", group := some "G" }

/-- Action `B` of the group-move scenario, in group `"G/Sub"`. -/
def actBG : CommandData := { name := "B", group := some "G/Sub" }

/-- Ungrouped action `C` of the group-move scenario. -/
def actCU : CommandData := { name := "C" }

/-- An ungrouped action placed before a grouped one. -/
def actU : CommandData := { name := "U" }

/-- A grouped action dropped on empty space. -/
def actG1 : CommandData := { name := "G1", group := some "g" }

/-- Ungrouped action used by the multi-drag scenario. -/
def actN0 : CommandData := { name := "N0" }

/-- Ungrouped action used by the multi-drag scenario. -/
def actN1 : CommandData := { name := "N1" }

/-- Ungrouped action used by the multi-drag scenario. -/
def actN2 : CommandData := { name := "N2" }

/-- Ungrouped action used by the multi-drag scenario. -/
def actN3 : CommandData := { name := "N3" }

/-- An action using only the deprecated singular fields. -/
def actLegacy : CommandData :=
  { name := "L", url := some "http://x",
    program := some "p.exe", args := some ["-a", "-b"] }

/-- An action carrying both the new-style arrays and the deprecated
singular fields. -/
def actBoth : CommandData :=
  { name := "N",
    urls := some [{ url := "u1" }], url := some "old",
    programs := some [{ path := "pp", args := some "aa" }],
    program := some "old.exe", args := some ["x", "y"] }

/-! General helper lemmas about the list operations of the embedding. -/

theorem get_opt_some_lt {α} : ∀ (l : List α) (i : Nat) (a : α),
    l[i]? = some a → i < l.length := by
  intro l
  induction l with
  | nil => intro i a h; simp at h
  | cons b bs ih =>
    intro i a h
    cases i with
    | zero => simp
    | succ n => exact Nat.succ_lt_succ (ih n a (by simpa using h))

theorem set_get_opt_self {α} : ∀ (l : List α) (i : Nat) (x : α),
    i < l.length → (l.set i x)[i]? = some x := by
  intro l
  induction l with
  | nil => intro i x h; simp at h
  | cons b bs ih =>
    intro i x h
    cases i with
    | zero => simp
    | succ n => simpa using ih n x (Nat.lt_of_succ_lt_succ (by simpa using h))

theorem eraseIdx_set_same {α} : ∀ (l : List α) (i : Nat) (x : α),
    (l.set i x).eraseIdx i = l.eraseIdx i := by
  intro l
  induction l with
  | nil => intro i x; rfl
  | cons b bs ih =>
    intro i x
    cases i with
    | zero => rfl
    | succ n => simpa [List.eraseIdx] using ih n x

theorem set_eq_spliceIns {α} : ∀ (l : List α) (i : Nat) (x : α), i < l.length →
    l.set i x = spliceIns (l.eraseIdx i) i [x] := by
  intro l
  induction l with
  | nil => intro i x h; simp at h
  | cons b bs ih =>
    intro i x h
    cases i with
    | zero => simp [spliceIns]
    | succ n =>
      have := ih n x (Nat.lt_of_succ_lt_succ (by simpa using h))
      simpa [spliceIns, List.eraseIdx] using this

theorem mem_spliceIns {α} {c : α} {l xs : List α} {n : Nat}
    (h : c ∈ spliceIns l n xs) : c ∈ l ∨ c ∈ xs := by
  unfold spliceIns at h
  rcases List.mem_append.mp h with h | h
  · rcases List.mem_append.mp h with h | h
    · exact Or.inl (List.take_subset n l h)
    · exact Or.inr h
  · exact Or.inl (List.drop_subset n l h)

theorem getElem_opt_mem {α} {l : List α} {i : Nat} {a : α}
    (h : l[i]? = some a) : a ∈ l := by
  induction l generalizing i with
  | nil => simp at h
  | cons b bs ih =>
    cases i with
    | zero => simp at h; simp [h]
    | succ n => exact List.mem_cons_of_mem b (ih (by simpa using h))

theorem mem_moveSplice {c : CommandData} {l : List CommandData} {s t : Nat}
    (h : c ∈ moveSplice l s t) : c ∈ l := by
  unfold moveSplice at h
  cases hg : l[s]? with
  | none => rw [hg] at h; exact h
  | some e =>
    rw [hg] at h
    rcases mem_spliceIns h with h | h
    · exact List.eraseIdx_subset l s h
    · rcases List.mem_singleton.mp h with rfl
      exact getElem_opt_mem hg

theorem group_update_self (cmd : CommandData) (h : cmd.group = none) :
    { cmd with group := none } = cmd := by
  cases cmd
  simp_all

/-- C1: with store `[A(no group), B("X"), C("X")]`, dropping `A` on the
command item `B` (target group `"X"`, target index `1`) does not produce
the spec's expected store `[B, A("X"), C]` — the claim fails on the
code. -/
theorem c1_counterexample :
    handleDrop [actA, actB, actC] [0] (some (.commandItem actB 1)) ≠
      [actB, { actA with group := some "X" }, actC] := by decide

/-- C1 (amended): the same drop produces `[A("X"), B, C]`: `A`'s group
becomes `"X"` and the adjusted splice lands `A` immediately before `B`,
at `B`'s former slot. -/
theorem c1_simple_move :
    handleDrop [actA, actB, actC] [0] (some (.commandItem actB 1)) =
      [{ actA with group := some "X" }, actB, actC] := by decide

/-- C2: with store `[A("G"), B("G/Sub"), C(no group)]`, the group-move of
`"G"` to a root drop does not produce the spec's expected store
`[C, A, B]` — the claim fails on the code. -/
theorem c2_counterexample :
    handleGroupDrop [actAG, actBG, actCU] "G" none ≠ [actCU, actAG, actBG] := by decide

/-- C2 (amended): the same group-move relocates the block `[A, B]` to
immediately before `C`, the first ungrouped action — which leaves this
store unchanged. -/
theorem c2_group_move_root :
    handleGroupDrop [actAG, actBG, actCU] "G" none = [actAG, actBG, actCU] := by decide

/-- C6: the claim fails as stated: with `autoClose` on, the string sent to
the internal terminal on win32 is the try/finally wrapper, not the bare
semicolon-joined command string. -/
theorem c6_counterexample :
    internalTerminalText "win32" true ["a", "b"] ≠ psJoined ["a", "b"] := by decide

/-- C6 (amended): for every non-empty command list the dispatcher joins
with `" && "` (POSIX form) and `"; "` (PowerShell form), and with
`autoClose` off the internal terminal receives the semicolon-joined form
on win32 and the `" && "`-joined form on every other platform. -/
theorem c6_internal_join (platform : String) (cmds : List String) (h : cmds ≠ []) :
    cmdJoined cmds = String.intercalate " && " cmds ∧
    psJoined cmds = String.intercalate "; " cmds ∧
    internalTerminalText platform false cmds =
      (if platform == "win32" then String.intercalate "; " cmds
       else String.intercalate " && " cmds) := by
  refine ⟨rfl, rfl, ?_⟩
  by_cases hp : platform == "win32" <;>
    simp [internalTerminalText, psJoined, cmdJoined, hp]

/-- C6 witness: the amended theorem applied to the one-command list on a
non-Windows platform. -/
theorem c6_internal_join_witness :
    (["echo hi"] ≠ ([] : List String)) ∧
    (cmdJoined ["echo hi"] = String.intercalate " && " ["echo hi"] ∧
     psJoined ["echo hi"] = String.intercalate "; " ["echo hi"] ∧
     internalTerminalText "linux" false ["echo hi"] =
       (if ("linux" : String) == "win32" then String.intercalate "; " ["echo hi"]
        else String.intercalate " && " ["echo hi"])) :=
  ⟨by decide, c6_internal_join "linux" ["echo hi"] (by decide)⟩

/-- C7: the claim fails as stated: an action whose deprecated `url` field
is the empty string is falsy in the source's truthiness test, so its
effective URL list is empty rather than a one-element wrapper. -/
theorem c7_counterexample :
    effectiveUrls { name := "E", url := some "" } ≠ [{ url := "" }] := by decide

/-- C7 (amended): a present `urls` array is used unchanged (same for a
`programs` array); an action with only a non-empty deprecated `url`
yields the one-element wrapper; an action with only a non-empty
deprecated `program` plus token-array `args` yields the one-element
program list whose args flatten to the space-joined string. -/
theorem c7_legacy_normalization (a : CommandData) :
    (∀ us, a.urls = some us → effectiveUrls a = us) ∧
    (∀ ps, a.programs = some ps →
      resolvedPrograms a = ps.map (fun p => (p.path, p.args.map JsArgs.ofStr))) ∧
    (∀ u, a.urls = none → a.url = some u → u ≠ "" →
      effectiveUrls a = [{ url := u }]) ∧
    (∀ p toks, a.programs = none → a.program = some p → p ≠ "" → a.args = some toks →
      (resolvedPrograms a).map (fun pr => (pr.1, progArgsStr pr.2)) =
        [(p, String.intercalate " " toks)]) := by
  refine ⟨?_, ?_, ?_, ?_⟩
  · intro us h; simp [effectiveUrls, h]
  · intro ps h; simp [resolvedPrograms, h]
  · intro u h1 h2 h3
    have : (u == "") = false := beq_eq_false_iff_ne.mpr h3
    simp [effectiveUrls, h1, h2, this]
  · intro p toks h1 h2 h3 h4
    have : (p == "") = false := beq_eq_false_iff_ne.mpr h3
    simp [resolvedPrograms, progArgsStr, h1, h2, h4, this]

/-- C7 witness: the amended theorem applied to an action using the
new-style arrays and to one using only the deprecated fields. -/
theorem c7_legacy_normalization_witness :
    effectiveUrls actBoth = [{ url := "u1" }] ∧
    resolvedPrograms actBoth = [("pp", some (JsArgs.ofStr "aa"))] ∧
    effectiveUrls actLegacy = [{ url := "http://x" }] ∧
    (resolvedPrograms actLegacy).map (fun pr => (pr.1, progArgsStr pr.2)) =
      [("p.exe", String.intercalate " " ["-a", "-b"])] :=
  ⟨(c7_legacy_normalization actBoth).1 _ rfl,
   (c7_legacy_normalization actBoth).2.1 [{ path := "pp", args := some "aa" }] rfl,
   (c7_legacy_normalization actLegacy).2.2.1 _ rfl rfl (by decide),
   (c7_legacy_normalization actLegacy).2.2.2 _ _ rfl rfl (by decide) rfl⟩

/-- C8: when the imported document's `commands` field is missing or not an
array, the import is rejected as a whole: the store is returned exactly as
it was and no persist happens, whatever the user's merge/replace choice
would have been. -/
theorem c8_import_reject (store : List CommandData) (doc : ImportedDoc)
    (choice : Option ImportAction)
    (h : doc.commands = none ∨ doc.commands = some ImportedCommands.nonArray) :
    importConfig store doc choice = (store, false) := by
  rcases h with h | h <;> simp [importConfig, h]

/-- C8 witness: a document with a missing `commands` field leaves a
one-action store untouched and unpersisted. -/
theorem c8_import_reject_witness :
    (({ commands := none } : ImportedDoc).commands = none ∨
     ({ commands := none } : ImportedDoc).commands = some ImportedCommands.nonArray) ∧
    importConfig [actA] { commands := none } (some ImportAction.merge) = ([actA], false) :=
  ⟨Or.inl rfl,
   c8_import_reject [actA] { commands := none } (some ImportAction.merge) (Or.inl rfl)⟩

/-- C9: when an action carries a new-style array together with its
deprecated singular counterpart, the dispatcher's effective lists, the
search-filter match and the tooltip all ignore the deprecated field
entirely: erasing it changes nothing. -/
theorem c9_array_fields_shadow_legacy (a : CommandData) :
    (a.urls.isSome = true →
      effectiveUrls a = effectiveUrls { a with url := none } ∧
      (∀ f, matchesSearch f a = matchesSearch f { a with url := none }) ∧
      buildTooltip a = buildTooltip { a with url := none }) ∧
    (a.programs.isSome = true →
      resolvedPrograms a = resolvedPrograms { a with program := none, args := none } ∧
      (∀ f, matchesSearch f a = matchesSearch f { a with program := none, args := none }) ∧
      buildTooltip a = buildTooltip { a with program := none, args := none }) := by
  constructor
  · intro h
    obtain ⟨us, hus⟩ := Option.isSome_iff_exists.mp h
    refine ⟨?_, fun f => ?_, ?_⟩ <;>
      simp [effectiveUrls, matchesSearch, searchPrograms, buildTooltip,
        tooltipPrograms, hus]
  · intro h
    obtain ⟨ps, hps⟩ := Option.isSome_iff_exists.mp h
    refine ⟨?_, fun f => ?_, ?_⟩ <;>
      simp [resolvedPrograms, matchesSearch, searchPrograms, effectiveUrls,
        buildTooltip, tooltipPrograms, hps]

/-- C9 witness: on an action carrying both array and deprecated fields, the
effective lists, a concrete search match and the tooltip are unchanged
when the deprecated fields are erased. -/
theorem c9_array_fields_shadow_legacy_witness :
    actBoth.urls.isSome = true ∧ actBoth.programs.isSome = true ∧
    effectiveUrls actBoth = effectiveUrls { actBoth with url := none } ∧
    matchesSearch "old" actBoth = matchesSearch "old" { actBoth with url := none } ∧
    buildTooltip actBoth = buildTooltip { actBoth with url := none } ∧
    resolvedPrograms actBoth = resolvedPrograms { actBoth with program := none, args := none } ∧
    buildTooltip actBoth = buildTooltip { actBoth with program := none, args := none } :=
  ⟨rfl, rfl,
   ((c9_array_fields_shadow_legacy actBoth).1 rfl).1,
   ((c9_array_fields_shadow_legacy actBoth).1 rfl).2.1 "old",
   ((c9_array_fields_shadow_legacy actBoth).1 rfl).2.2,
   ((c9_array_fields_shadow_legacy actBoth).2 rfl).1,
   ((c9_array_fields_shadow_legacy actBoth).2 rfl).2.2⟩

/-- C3: the claim fails as stated: with store `[U(no group), G1("g")]`,
dropping `G1` on empty space clears its group but inserts it *before* the
ungrouped action `U`, not after the last ungrouped action. -/
theorem c3_counterexample :
    handleDrop [actU, actG1] [1] none ≠ [actU, { actG1 with group := none }] := by decide

/-- C3 (amended): for every store and every move-action drop with an absent
target, the moved action's group is cleared and the action is spliced
(with the standard removal adjustment) to the index of the first action
whose group is falsy (absent or empty), or to the end of the store when no
such action exists. -/
theorem c3_root_drop_clears_group (commands : List CommandData) (i : Nat)
    (cmd : CommandData) (h : commands[i]? = some cmd) :
    handleDrop commands [i] none =
      (let t := (commands.findIdx? (fun c => groupFalsy c.group)).getD commands.length
       spliceIns (commands.eraseIdx i) (if i < t then t - 1 else t)
         [{ cmd with group := none }]) := by
  have hlen : i < commands.length := get_opt_some_lt commands i cmd h
  cases hg : cmd.group with
  | none =>
    simp [handleDrop, h, resolveDropTarget, moveSplice, hg, group_update_self cmd hg]
  | some g =>
    have hbf : (cmd.group == (none : Option String)) = false := by simp [hg]
    by_cases ht :
        ((commands.findIdx? (fun c => groupFalsy c.group)).getD commands.length) = i
    · simp only [handleDrop, h, resolveDropTarget, hbf, Bool.false_eq_true, if_false,
        ht, beq_self_eq_true, if_true]
      rw [set_eq_spliceIns commands i _ hlen]
      simp
    · have hbt :
          (((commands.findIdx? (fun c => groupFalsy c.group)).getD commands.length)
            == i) = false := by simp [ht]
      have hset := set_get_opt_self commands i { cmd with group := (none : Option String) } hlen
      have herase := eraseIdx_set_same commands i { cmd with group := (none : Option String) }
      simp only [handleDrop, h, resolveDropTarget, hbf, Bool.false_eq_true, if_false,
        hbt, moveSplice, hset, herase]

/-- C3 witness: the amended theorem applied to the two-action store, where
the first falsy-group action sits at index `0`. -/
theorem c3_root_drop_clears_group_witness :
    ([actU, actG1][1]? = some actG1) ∧
    handleDrop [actU, actG1] [1] none =
      (let t := ([actU, actG1].findIdx? (fun c => groupFalsy c.group)).getD
        [actU, actG1].length
       spliceIns ([actU, actG1].eraseIdx 1) (if 1 < t then t - 1 else t)
         [{ actG1 with group := none }]) :=
  ⟨rfl, c3_root_drop_clears_group [actU, actG1] 1 actG1 rfl⟩

/-- C10: the claim fails as stated: dragging indices `[0, 1]` of the
all-ungrouped store `[N0, N1, N2, N3]` onto `N3` moves `N0`, and the other
dragged action `N1` does *not* keep its position — it shifts from index 1
to index 0. -/
theorem c10_counterexample :
    (handleDrop [actN0, actN1, actN2, actN3] [0, 1]
        (some (.commandItem actN3 3))) = [actN1, actN2, actN0, actN3] ∧
    (handleDrop [actN0, actN1, actN2, actN3] [0, 1]
        (some (.commandItem actN3 3)))[1]? ≠ some actN1 := by decide

/-- C10 (amended): a multi-index command drag acts only on the first listed
index — the result equals dragging that index alone — and every action of
the result is either an original store entry (its group untouched) or the
first-index action with a reassigned group; other dragged actions are
never separately moved or regrouped, though their absolute positions may
shift as a side effect of the single move. -/
theorem c10_multi_drag_first_only (commands : List CommandData) (i : Nat)
    (rest : List Nat) (target : Option DropTarget) :
    handleDrop commands (i :: rest) target = handleDrop commands [i] target ∧
    ∀ c ∈ handleDrop commands (i :: rest) target,
      c ∈ commands ∨ ∃ cmd, commands[i]? = some cmd ∧
        ∃ tg, c = { cmd with group := tg } := by
  refine ⟨rfl, ?_⟩
  intro c hc
  cases hget : commands[i]? with
  | none => simp only [handleDrop, hget] at hc; exact Or.inl hc
  | some cmd =>
    simp only [handleDrop, hget] at hc
    by_cases hsame : (cmd.group == (resolveDropTarget commands target).1) = true
    · rw [if_pos hsame] at hc
      exact Or.inl (mem_moveSplice hc)
    · rw [if_neg hsame] at hc
      by_cases heq : ((resolveDropTarget commands target).2 == i) = true
      · rw [if_pos heq] at hc
        rcases List.mem_or_eq_of_mem_set hc with h | h
        · exact Or.inl h
        · exact Or.inr ⟨cmd, rfl, _, h⟩
      · rw [if_neg heq] at hc
        have hc' := mem_moveSplice hc
        rcases List.mem_or_eq_of_mem_set hc' with h | h
        · exact Or.inl h
        · exact Or.inr ⟨cmd, rfl, _, h⟩

/-- C10 witness: the amended theorem applied to the multi-drag scenario,
projected to the concrete dragged store and one result member. -/
theorem c10_multi_drag_first_only_witness :
    handleDrop [actN0, actN1, actN2, actN3] [0, 1] (some (.commandItem actN3 3)) =
      handleDrop [actN0, actN1, actN2, actN3] [0] (some (.commandItem actN3 3)) ∧
    (actN1 ∈ [actN0, actN1, actN2, actN3] ∨
      ∃ cmd, [actN0, actN1, actN2, actN3][0]? = some cmd ∧
        ∃ tg, actN1 = { cmd with group := tg }) :=
  ⟨(c10_multi_drag_first_only [actN0, actN1, actN2, actN3] 0 [1]
      (some (.commandItem actN3 3))).1,
   (c10_multi_drag_first_only [actN0, actN1, actN2, actN3] 0 [1]
      (some (.commandItem actN3 3))).2 actN1 (by decide)⟩

/-! Helper lemmas for the group-move engine: the descending index sort and
the removal loop of `handleGroupDrop`. -/

theorem enumFrom_shift {α} : ∀ (l : List α) (i : Nat),
    enumFrom (i + 1) l = (enumFrom i l).map (fun p => (p.1 + 1, p.2)) := by
  intro l
  induction l with
  | nil => intro i; rfl
  | cons a as ih => intro i; simp [enumFrom, ih (i + 1)]

theorem filter_map_fst_shift (p : CommandData → Bool) :
    ∀ (xs : List (Nat × CommandData)),
      (((xs.map (fun q => (q.1 + 1, q.2))).filter (fun q => p q.2)).map Prod.fst) =
        ((xs.filter (fun q => p q.2)).map Prod.fst).map (· + 1) := by
  intro xs
  induction xs with
  | nil => rfl
  | cons q xs ih => by_cases h : p q.2 <;> simp [h, ih]

theorem idxsWhere_cons (p : CommandData → Bool) (c : CommandData) (l : List CommandData) :
    idxsWhere p (c :: l) =
      (if p c then [0] else []) ++ (idxsWhere p l).map (· + 1) := by
  unfold idxsWhere
  rw [show enumFrom 0 (c :: l) = (0, c) :: enumFrom 1 l from rfl,
    enumFrom_shift l 0]
  by_cases h : p c <;> simp [h, filter_map_fst_shift]

theorem idxsWhere_pairwise (p : CommandData → Bool) :
    ∀ (l : List CommandData), (idxsWhere p l).Pairwise (· < ·) := by
  intro l
  induction l with
  | nil => simp [idxsWhere, enumFrom]
  | cons c l ih =>
    rw [idxsWhere_cons]
    have hmap : ((idxsWhere p l).map (· + 1)).Pairwise (· < ·) := by
      rw [List.pairwise_map]
      exact ih.imp (fun h => Nat.succ_lt_succ h)
    by_cases h : p c
    · simp only [h, if_true, List.singleton_append, List.pairwise_cons]
      refine ⟨?_, hmap⟩
      intro b hb
      rcases List.mem_map.mp hb with ⟨x, _, rfl⟩
      exact Nat.succ_pos x
    · simpa [h] using hmap

theorem orderedInsert_min (x : Nat) : ∀ (ys : List Nat), (∀ y ∈ ys, x < y) →
    List.orderedInsert (fun a b => b ≤ a) x ys = ys ++ [x] := by
  intro ys
  induction ys with
  | nil => intro; rfl
  | cons y ys ih =>
    intro h
    have hy : ¬ (y ≤ x) := Nat.not_le.mpr (h y (by simp))
    simp only [List.orderedInsert, hy, if_false]
    rw [ih (fun z hz => h z (by simp [hz]))]
    simp

theorem sortDescNat_of_sorted : ∀ (xs : List Nat), xs.Pairwise (· < ·) →
    sortDescNat xs = xs.reverse := by
  intro xs
  induction xs with
  | nil => intro; rfl
  | cons a l ih =>
    intro h
    rcases List.pairwise_cons.mp h with ⟨ha, hl⟩
    unfold sortDescNat at *
    rw [show List.insertionSort (fun a b => b ≤ a) (a :: l) =
        List.orderedInsert (fun a b => b ≤ a) a
          (List.insertionSort (fun a b => b ≤ a) l) from rfl]
    rw [ih hl, orderedInsert_min a l.reverse (fun y hy => ha y (List.mem_reverse.mp hy))]
    simp

theorem removeLoop_shiftA (c : CommandData) :
    ∀ (idxs : List Nat) (l : List CommandData),
      removeLoop (c :: l) (idxs.map (· + 1)) =
        (c :: (removeLoop l idxs).1, (removeLoop l idxs).2) := by
  intro idxs
  induction idxs with
  | nil => intro l; simp [removeLoop]
  | cons i rest ih =>
    intro l
    rw [show (i :: rest).map (· + 1) = (i + 1) :: rest.map (· + 1) from rfl]
    simp only [removeLoop]
    rw [show (c :: l).eraseIdx (i + 1) = c :: l.eraseIdx i from rfl,
      ih (l.eraseIdx i)]
    simp

theorem removeLoop_shiftB (c : CommandData) :
    ∀ (idxs : List Nat) (l : List CommandData),
      removeLoop (c :: l) (idxs.map (· + 1) ++ [0]) =
        ((removeLoop l idxs).1, c :: (removeLoop l idxs).2) := by
  intro idxs
  induction idxs with
  | nil => intro l; simp [removeLoop]
  | cons i rest ih =>
    intro l
    rw [show (i :: rest).map (· + 1) ++ [0] = (i + 1) :: (rest.map (· + 1) ++ [0]) from rfl]
    simp only [removeLoop]
    rw [show (c :: l).eraseIdx (i + 1) = c :: l.eraseIdx i from rfl,
      ih (l.eraseIdx i)]
    simp

theorem removeLoop_partition (p : CommandData → Bool) :
    ∀ (l : List CommandData),
      removeLoop l (sortDescNat (idxsWhere p l)) =
        (l.filter (fun c => !(p c)), l.filter p) := by
  intro l
  induction l with
  | nil => rfl
  | cons c l ih =>
    rw [sortDescNat_of_sorted _ (idxsWhere_pairwise p (c :: l)), idxsWhere_cons]
    by_cases h : p c
    · rw [if_pos h, List.singleton_append, List.reverse_cons,
        ← List.map_reverse, ← sortDescNat_of_sorted _ (idxsWhere_pairwise p l),
        removeLoop_shiftB c (sortDescNat (idxsWhere p l)) l, ih]
      simp [h]
    · rw [if_neg h, List.nil_append,
        ← List.map_reverse, ← sortDescNat_of_sorted _ (idxsWhere_pairwise p l),
        removeLoop_shiftA c (sortDescNat (idxsWhere p l)) l, ih]
      simp [h]

theorem filter_eq_nil_of_neg {α} (p : α → Bool) :
    ∀ (l : List α), (∀ a ∈ l, p a = false) → l.filter p = [] := by
  intro l
  induction l with
  | nil => intro; rfl
  | cons a as ih =>
    intro h
    have ha : p a = false := h a (by simp)
    simp only [List.filter, ha]
    exact ih (fun b hb => h b (by simp [hb]))

theorem filter_eq_self_of_pos {α} (p : α → Bool) :
    ∀ (l : List α), (∀ a ∈ l, p a = true) → l.filter p = l := by
  intro l
  induction l with
  | nil => intro; rfl
  | cons a as ih =>
    intro h
    have ha : p a = true := h a (by simp)
    simp only [List.filter, ha]
    rw [ih (fun b hb => h b (by simp [hb]))]

theorem filter_spliceIns_parts {α} (p : α → Bool) (k m : List α) (n : Nat)
    (hk : ∀ a ∈ k, p a = false) (hm : ∀ a ∈ m, p a = true) :
    (spliceIns k n m).filter p = m ∧
    (spliceIns k n m).filter (fun a => !(p a)) = k := by
  unfold spliceIns
  constructor
  · rw [List.filter_append, List.filter_append,
      filter_eq_nil_of_neg p _ (fun a ha => hk a (List.take_subset n k ha)),
      filter_eq_nil_of_neg p _ (fun a ha => hk a (List.drop_subset n k ha)),
      filter_eq_self_of_pos p m hm]
    simp
  · rw [List.filter_append, List.filter_append,
      filter_eq_self_of_pos _ (List.take n k)
        (fun a ha => by simp [hk a (List.take_subset n k ha)]),
      filter_eq_nil_of_neg _ m (fun a ha => by simp [hm a ha]),
      filter_eq_self_of_pos _ (List.drop n k)
        (fun a ha => by simp [hk a (List.drop_subset n k ha)])]
    simp [List.take_append_drop]

/-- C4: a group-move drop never rewrites any action's `groupPath`: the
moved members reappear verbatim (same records, same internal order), and
the actions outside the moved group also keep their relative order among
themselves — for every store, source group and target. -/
theorem c4_group_drop_frame (commands : List CommandData) (g : String)
    (target : Option DropTarget) :
    (handleGroupDrop commands g target).filter (inGroupStr g) =
      commands.filter (inGroupStr g) ∧
    (handleGroupDrop commands g target).filter (fun c => !(inGroupStr g c)) =
      commands.filter (fun c => !(inGroupStr g c)) := by
  unfold handleGroupDrop
  by_cases he : (commands.filter (inGroupStr g)).isEmpty
  · simp [he]
  · simp only [he, Bool.false_eq_true, if_false]
    rw [removeLoop_partition (inGroupStr g) commands]
    have hk : ∀ a ∈ commands.filter (fun c => !(inGroupStr g c)),
        inGroupStr g a = false := by
      intro a ha
      have := (List.mem_filter.mp ha).2
      simpa using this
    have hm : ∀ a ∈ commands.filter (inGroupStr g), inGroupStr g a = true :=
      fun a ha => (List.mem_filter.mp ha).2
    exact filter_spliceIns_parts (inGroupStr g) _ _ _ hk hm

theorem filteredCmds_eq (f : String) (commands : List CommandData) :
    filteredCmds f commands = commands.filter (matchesSearch f) := by
  unfold filteredCmds
  by_cases h : f = ""
  · rw [if_pos (by simp [h])]
    rw [filter_eq_self_of_pos _ commands (fun a _ => by simp [matchesSearch, h])]
  · rw [if_neg (by simp [h])]

theorem getGroupChildrenStep_items (f gp : String)
    (acc : List TreeItem × List String) (q : Nat × CommandData) :
    (getGroupChildrenStep f gp acc q).1 = acc.1 ∨
    (getGroupChildrenStep f gp acc q).1 = acc.1 ++ [TreeItem.command q.2 q.1] := by
  unfold getGroupChildrenStep
  rcases hq : q.2.group with _ | g
  · exact Or.inl rfl
  · by_cases h1 : (g == "") = true
    · simp [h1]
    · by_cases h2 : (!(f == "") && !(matchesSearch f q.2)) = true
      · simp [h1, h2]
      · by_cases h3 : (g == gp) = true
        · simp [h1, h2, h3]
        · by_cases h4 : strStartsWith g (gp ++ "/") = true
          · refine Or.inl ?_
            simp only [h1, h2, h3, h4, Bool.false_eq_true, if_false, if_true]
            split <;> rfl
          · simp [h1, h2, h3, h4]

theorem foldl_children_items (f gp : String) :
    ∀ (l : List (Nat × CommandData)) (acc : List TreeItem × List String),
      (∀ x ∈ acc.1, ∃ d i, x = TreeItem.command d i) →
      ∀ x ∈ (l.foldl (getGroupChildrenStep f gp) acc).1,
        ∃ d i, x = TreeItem.command d i := by
  intro l
  induction l with
  | nil => intro acc hacc x hx; exact hacc x hx
  | cons q l ih =>
    intro acc hacc x hx
    refine ih (getGroupChildrenStep f gp acc q) ?_ x hx
    intro y hy
    rcases getGroupChildrenStep_items f gp acc q with hs | hs
    · exact hacc y (hs ▸ hy)
    · rw [hs] at hy
      rcases List.mem_append.mp hy with hy | hy
      · exact hacc y hy
      · exact ⟨q.2, q.1, List.mem_singleton.mp hy⟩

/-- C5: whenever the tree builder emits a `GroupNode` for a path `P` — at
the root level or among the children of any group — its reported
descendant action count equals the number of filter-matching actions whose
group equals `P` or starts with `P + "/"`. -/
theorem c5_group_count_invariant (commands : List CommandData) (f : String)
    (expanded : List String) (P : String) (e : Bool) (cnt : Nat)
    (h : TreeItem.group P e cnt ∈ getRootItems commands f expanded ∨
         ∃ gp, TreeItem.group P e cnt ∈ getGroupChildren commands f expanded gp) :
    cnt = ((commands.filter (matchesSearch f)).filter (inGroupStr P)).length := by
  rcases h with h | ⟨gp, h⟩
  · simp only [getRootItems] at h
    rcases List.mem_append.mp h with h | h
    · rcases List.mem_map.mp h with ⟨gname, hmem, heq⟩
      rw [TreeItem.group.injEq] at heq
      rcases heq with ⟨rfl, -, rfl⟩
      rw [getGroupCommandCount, filteredCmds_eq]
    · rcases List.mem_map.mp h with ⟨q, -, heq⟩
      exact absurd heq (by simp)
  · simp only [getGroupChildren] at h
    rcases List.mem_append.mp h with h | h
    · rcases List.mem_map.mp h with ⟨gname, hmem, heq⟩
      rw [TreeItem.group.injEq] at heq
      rcases heq with ⟨rfl, -, rfl⟩
      rw [getGroupCommandCount, filteredCmds_eq]
    · rcases foldl_children_items f gp (enumFrom 0 commands) ([], [])
        (by intro x hx; exact absurd hx (List.not_mem_nil x)) _ h with ⟨d, i, heq⟩
      exact absurd heq (by simp)

/-- C5 witness: for the one-action store `[B("X")]` with no filter, the
root view emits the group node for `"X"` with count `1`, which equals the
number of matching actions in `"X"` or below. -/
theorem c5_group_count_invariant_witness :
    (TreeItem.group "X" false 1 ∈ getRootItems [actB] "" [] ∨
     ∃ gp, TreeItem.group "X" false 1 ∈ getGroupChildren [actB] "" [] gp) ∧
    1 = (([actB].filter (matchesSearch "")).filter (inGroupStr "X")).length :=
  ⟨Or.inl (by decide),
   c5_group_count_invariant [actB] "" [] "X" false 1 (Or.inl (by decide))⟩

end CMDRun
